import Mathlib

/-
Verification of the SPBVP solver adapter (beluga/solvers/bvp_solvers/SPBVP.py).

The adapter reformulates a two-point boundary value problem with states,
optional quadrature variables, dynamic parameters and non-dynamic parameters
into the fixed-shape form required by an external collocation engine
(scipy.integrate.solve_bvp) and decodes the engine output back into a domain
solution record.

Shallow embedding conventions:
 - numpy 1-D arrays become `List Int` (the entry type is irrelevant to the
   plumbing claims; scipy floats are modelled as integers);
 - numpy 2-D arrays become lists of rows `List (List Int)`;
 - a value whose runtime rank can be 1 or 2 (the raw parameter-sensitivity
   block) becomes the sum type `NDArr`;
 - numpy slice assignment with broadcasting, and np.hstack, are modelled by
   `Option`-valued operations that return `none` exactly where numpy raises
   a shape error;
 - the external engine is an explicit function argument of `solve`;
 - wall-clock time is external to the model: the stored comp_time is 0;
 - Python object identity and in-place mutation (the deep copy on entry,
   the shallow copy of the solution, the shared aux dictionary) are modelled
   by an explicit heap in `solveH`, while `solve` is the value-level pipeline.
-/

namespace SPBVP

abbrev Vec := List Int
abbrev Mat := List (List Int)

/-- Column count of a 2-D array: the length of the first row (numpy
shape[1] for a rectangular array; 0 for the empty array). -/
def ncols (A : Mat) : Nat := (A.headD []).length

/-- Total element count, numpy's `.size`. -/
def msize (A : Mat) : Nat := (A.map List.length).sum

/-- Matrix transpose (numpy `.T`) for row-major rectangular data. -/
def transposeM (A : Mat) : Mat :=
  (List.range (ncols A)).map (fun j => A.map (fun r => r.getD j 0))

/-- Zero matrix of the given shape, np.zeros((n, m)). -/
def zeros2 (n m : Nat) : Mat := List.replicate n (List.replicate m 0)

/-- Horizontal stack of two matrices with the same row count,
np.hstack for the guess assembly (rows are zipped). -/
def hstackM (A B : Mat) : Mat := List.zipWith (· ++ ·) A B

/-- Option-valued map over a list, failing if any element fails; used to
model per-row shape checks. -/
def optMapList (f : α → Option β) : List α → Option (List β)
  | [] => some []
  | a :: l =>
    match f a with
    | none => none
    | some b => (optMapList f l).map (b :: ·)

/-- Broadcast one row to width m: numpy keeps a row of matching width and
replicates a width-1 row; anything else is a shape error. -/
def bcastRow (r : Vec) (m : Nat) : Option Vec :=
  if r.length = m then some r
  else if r.length = 1 then some (List.replicate m (r.headD 0))
  else none

/-- Broadcast a 2-D value into a 2-D slot of shape (n, m): numpy slice
assignment `slot[:, :] = A`.  Each dimension must match or be 1. -/
def broadcastTo (A : Mat) (n m : Nat) : Option Mat :=
  match optMapList (fun r => bcastRow r m) A with
  | none => none
  | some rows =>
    if rows.length = n then some rows
    else if rows.length = 1 then some (List.replicate n (rows.headD []))
    else none

/-- Runtime-rank array: the raw parameter-sensitivity block returned by the
analytic dynamics Jacobian can be a 1-D vector or a 2-D matrix. -/
inductive NDArr where
  | v (xs : Vec)
  | m (rows : Mat)
deriving DecidableEq

/-- Line 78 of SPBVP.py: `if nstates > 1 and len(_df_dp.shape) == 1:
_df_dp = np.array([_df_dp]).T` — promote a 1-D block to a column matrix,
but only when nstates exceeds 1. -/
def promoteDp (nstates : Nat) (dp : NDArr) : NDArr :=
  match dp with
  | .v xs => if 1 < nstates then .m (xs.map (fun x => [x])) else .v xs
  | .m A => .m A

/-- Line 80: `np.hstack((_df_dp, np.zeros((nstates, nnondyn))))`.
np.concatenate along axis 1 demands a 2-D left operand with exactly
nstates rows (matching the zero block); a 1-D operand raises. -/
def hstackPad (dp : NDArr) (nstates nnondyn : Nat) : Option Mat :=
  match dp with
  | .v _ => none
  | .m A =>
    if A.length = nstates ∧ A.all (fun r => r.length = ncols A) then
      some (A.map (fun r => r ++ List.replicate nnondyn 0))
    else none

/-- Possible shapes of the value returned by the dynamics-Jacobian closure:
only the state-sensitivity slices, or both state- and parameter-sensitivity
slices (3-axis arrays represented as per-node lists of matrices). -/
inductive FunJacOut where
  | single (dfdy : List Mat)
  | pair (dfdy dfdp : List Mat)
deriving DecidableEq

/-- Trace of one evaluation of the dynamics-Jacobian closure: the arguments
of every call made to the analytic function, and the overall outcome
(`none` models a raised shape error). -/
structure FunJacTrace where
  calls : List (Vec × Vec)
  out : Option FunJacOut
deriving DecidableEq

/-- Lines 75-80, one loop iteration: call the analytic Jacobian with the
node column `yi` and `params[:ndyn]`, assign the state block into the
(n, n) slice, promote/pad the parameter block and assign it into the
(n, ndyn+nnondyn) slice. -/
def jacNode (jac : Vec → Vec → Vec → Mat × NDArr) (nstates ndyn nnondyn n : Nat)
    (k params yi : Vec) : Option (Mat × Mat) :=
  let r := jac yi (params.take ndyn) k
  match broadcastTo r.1 n n with
  | none => none
  | some dy =>
    match hstackPad (promoteDp nstates r.2) nstates nnondyn with
    | none => none
    | some padded =>
      match broadcastTo padded n (ndyn + nnondyn) with
      | none => none
      | some dp => some (dy, dp)

/-- Lines 75-80, the `for ii, yi in enumerate(y)` loop.  The analytic
function is called first (recorded), then the slice assignment may fail;
an index `ii ≥ t.size` is an out-of-bounds slice and also fails. -/
def funJacLoop (jac : Vec → Vec → Vec → Mat × NDArr) (nstates ndyn nnondyn n T : Nat)
    (k params : Vec) : Nat → List Vec → List (Vec × Vec) × Option (List (Mat × Mat))
  | _, [] => ([], some [])
  | ii, yi :: rest =>
    if ii < T then
      match jacNode jac nstates ndyn nnondyn n k params yi with
      | none => ([(yi, params.take ndyn)], none)
      | some s =>
        let pr := funJacLoop jac nstates ndyn nnondyn n T k params (ii + 1) rest
        ((yi, params.take ndyn) :: pr.1, pr.2.map (s :: ·))
    else ([(yi, params.take ndyn)], none)

/-- Lines 82-85: zero-fill the unwritten node slices and select the return
arity — only df_dy when ndyn + nnondyn == 0, otherwise the pair. -/
def funJacAssemble (ndyn nnondyn n pad : Nat) :
    Option (List (Mat × Mat)) → Option FunJacOut
  | none => none
  | some slices =>
    if ndyn + nnondyn = 0 then
      some (.single (slices.map (·.1) ++ List.replicate pad (zeros2 n n)))
    else
      some (.pair (slices.map (·.1) ++ List.replicate pad (zeros2 n n))
                  (slices.map (·.2) ++ List.replicate pad (zeros2 n (ndyn + nnondyn))))

/-- Lines 69-85, the `_fun_jac` closure body: transpose the stacked state,
read n = y[0].size, allocate np.zeros((n, n, t.size)) and
np.zeros((n, ndyn+nnondyn, t.size)), run the per-node loop, and return the
assembled arrays together with the trace of analytic-function calls. -/
def funJacRun (jac : Vec → Vec → Vec → Mat × NDArr) (nstates ndyn nnondyn : Nat)
    (k t : Vec) (y : Mat) (params : Vec) : FunJacTrace :=
  let yT := transposeM y
  let n := (yT.headD []).length
  { calls := (funJacLoop jac nstates ndyn nnondyn n t.length k params 0 yT).1
    out := funJacAssemble ndyn nnondyn n (t.length - yT.length)
             (funJacLoop jac nstates ndyn nnondyn n t.length k params 0 yT).2 }

/-- Trajectory / guess record (beluga.data_classes.trajectory), value view.
The aux mapping is an association list; y, q, lam are row-per-node. -/
structure Traj where
  t : Vec
  y : Mat
  q : Mat
  p : Vec
  nu : Vec
  k : Vec
  lam : Mat
  aux : List (String × Int)
  converged : Bool
deriving DecidableEq

/-- Solver object: the attributes of the SPBVP instance that `solve` reads.
The boundary function takes its argument list as one list because the code
uses two different arities for it. -/
structure Solver where
  derivative_function : Vec → Vec → Vec → Vec
  quadrature_function : Vec → Vec → Vec → Vec
  boundarycondition_function : List Vec → Vec
  derivative_function_jac : Option (Vec → Vec → Vec → Mat × NDArr)
  boundarycondition_function_jac : Option (List Vec → Mat × Mat × Mat)
  max_nodes : Nat

/-- The `return_nil` substitute installed when the guess has no quadrature
entries (line 41-43 of SPBVP.py): accepts anything, returns np.array([]). -/
def return_nil : Vec → Vec → Vec → Vec := fun _ _ _ => []

/-- Arguments handed to the external collocation engine (solve_bvp). -/
structure EngineInput where
  fn : Vec → Mat → Vec → Mat
  bc : Vec → Vec → Vec → Vec
  t : Vec
  y0 : Mat
  p0 : Vec
  max_nodes : Nat
  fun_jac : Option (Vec → Mat → Vec → Option FunJacOut)
  bc_jac : Option (Vec → Vec → Vec → Mat × Mat × Mat)

/-- Raw output of the external collocation engine. -/
structure EngineOutput where
  x : Vec
  y : Mat
  p : Option Vec
  success : Bool
  message : String
  rms_residuals : Vec
  niter : Nat
deriving DecidableEq

/-- Result record returned by `solve`. -/
structure BVPResult where
  sol : Traj
  success : Bool
  message : String
  rms_residuals : Vec
  niter : Nat
deriving DecidableEq

/-- Lines 31-103 of SPBVP.py: dimension splitting, the conditional
substitution of the quadrature function (a mutation of `self`!), and the
construction of all closures and engine arguments.  Returns the
(possibly mutated) solver object together with the engine input. -/
def buildEngineInput (self0 : Solver) (solinit : Traj) : Solver × EngineInput :=
  let nstates := ncols solinit.y
  let self :=
    if 0 < msize solinit.q then self0
    else { self0 with quadrature_function := return_nil }
  let nquads := if 0 < msize solinit.q then ncols solinit.q else 0
  let ndyn := solinit.p.length
  let nnondyn := solinit.nu.length
  (self,
   { fn :=
       if 0 < msize solinit.q then
         fun _t y params =>
           transposeM ((transposeM y).map (fun yi =>
             self.derivative_function (yi.take nstates) (params.take ndyn) solinit.k
               ++ self.quadrature_function (yi.take nstates) (params.take ndyn) solinit.k))
       else
         fun _t y params =>
           transposeM ((transposeM y).map (fun yi =>
             self.derivative_function (yi.take nstates) (params.take ndyn) solinit.k))
     bc :=
       if 0 < msize solinit.q then
         fun ya yb params =>
           self.boundarycondition_function
             [ya.take nstates, (ya.drop nstates).take nquads,
              yb.take nstates, (yb.drop nstates).take nquads,
              params.take ndyn, (params.drop ndyn).take nnondyn, solinit.k]
       else
         fun ya yb params =>
           self.boundarycondition_function
             [ya, yb, params.take ndyn, (params.drop ndyn).take nnondyn, solinit.k]
     t := solinit.t
     y0 :=
       if 0 < msize solinit.q then transposeM (hstackM solinit.y solinit.q)
       else transposeM solinit.y
     p0 := solinit.p ++ solinit.nu
     max_nodes := self0.max_nodes
     fun_jac :=
       self0.derivative_function_jac.map (fun jac =>
         fun t y params => (funJacRun jac nstates ndyn nnondyn solinit.k t y params).out)
     bc_jac :=
       self0.boundarycondition_function_jac.map (fun bj =>
         if 0 < msize solinit.q then
           fun ya yb params =>
             bj [ya.take nstates, (ya.drop nstates).take nquads,
                 yb.take nstates, (yb.drop nstates).take nquads,
                 params.take ndyn, (params.drop ndyn).take nnondyn, solinit.k]
         else
           fun ya yb params =>
             bj [ya, yb, params.take ndyn, (params.drop ndyn).take nnondyn, solinit.k]) })

/-- Dictionary write `d[key] = v` on the aux association list. -/
def setKey (d : List (String × Int)) (key : String) (v : Int) : List (String × Int) :=
  if d.any (fun kv => kv.1 = key) then
    d.map (fun kv => if kv.1 = key then (kv.1, v) else kv)
  else d ++ [(key, v)]

/-- Lines 117-131: the Result Composer field updates on the shallow copy of
the working solution (everything except the aux-dictionary writes). -/
def composeSolFields (solinit : Traj) (out : EngineOutput) : Traj :=
  let nstates := ncols solinit.y
  let nquads := if 0 < msize solinit.q then ncols solinit.q else 0
  let ndyn := solinit.p.length
  let nnondyn := solinit.nu.length
  let yT := transposeM out.y
  { solinit with
    t := out.x
    y := yT.map (fun r => r.take nstates)
    q := yT.map (fun r => (r.drop nstates).take nquads)
    lam := (yT.map (fun r => r.take nstates)).map (fun r => r.map (fun _ => (0 : Int)))
    p := match out.p with | some pv => pv.take ndyn | none => []
    nu := match out.p with | some pv => (pv.drop ndyn).take nnondyn | none => []
    converged := out.success }

/-- Lines 117-133 including the aux-dictionary writes (comp_time is an
external wall-clock measurement, modelled as 0). -/
def composeSol (solinit : Traj) (out : EngineOutput) : Traj :=
  let s := composeSolFields solinit out
  { s with aux := setKey (setKey solinit.aux "comp_time" 0) "niter" (Int.ofNat out.niter) }

/-- Lines 29-137: the whole `solve` method, value view.  The deep copy on
entry makes the body operate on a value of its own, so the value view takes
the guess by value; the external engine is an explicit argument.  The
method mutates `self` only through the quadrature-function substitution in
`buildEngineInput`; the updated solver object is returned alongside the
result so that sequential calls can be chained. -/
def solve (engine : EngineInput → EngineOutput) (self : Solver) (solinit : Traj) :
    Solver × BVPResult :=
  let pr := buildEngineInput self solinit
  let out := engine pr.2
  let sol := composeSol solinit out
  (pr.1,
   { sol := sol
     success := out.success
     message := out.message
     rms_residuals := out.rms_residuals
     niter := out.niter })

/-! Heap model for the aliasing claims.  Python objects live at addresses;
a Trajectory object holds its array fields by value (arrays are never
mutated in place by this code) and its aux dictionary by reference. -/

/-- Trajectory object as stored on the heap: aux is a dictionary address. -/
structure HTraj where
  t : Vec
  y : Mat
  q : Mat
  p : Vec
  nu : Vec
  k : Vec
  lam : Mat
  auxAddr : Nat
  converged : Bool
deriving DecidableEq

/-- Association-list lookup keyed by address. -/
def alookup (a : Nat) : List (Nat × α) → Option α
  | [] => none
  | (b, v) :: l => if a = b then some v else alookup a l

/-- In-place update of the object stored at an address. -/
def aupdate (a : Nat) (f : α → α) : List (Nat × α) → List (Nat × α)
  | [] => []
  | (b, v) :: l => if b = a then (b, f v) :: aupdate a f l else (b, v) :: aupdate a f l

/-- Heap: trajectory objects, aux dictionaries, and a fresh-address counter. -/
structure Heap where
  trajs : List (Nat × HTraj)
  dicts : List (Nat × List (String × Int))
  fresh : Nat
deriving DecidableEq

def allocT (h : Heap) (v : HTraj) : Heap × Nat :=
  ({ h with trajs := (h.fresh, v) :: h.trajs, fresh := h.fresh + 1 }, h.fresh)

def allocD (h : Heap) (d : List (String × Int)) : Heap × Nat :=
  ({ h with dicts := (h.fresh, d) :: h.dicts, fresh := h.fresh + 1 }, h.fresh)

def lookupT (h : Heap) (a : Nat) : Option HTraj := alookup a h.trajs

def lookupD (h : Heap) (a : Nat) : Option (List (String × Int)) := alookup a h.dicts

def updateD (h : Heap) (a : Nat) (key : String) (v : Int) : Heap :=
  { h with dicts := aupdate a (fun d => setKey d key v) h.dicts }

/-- Value view of a heap trajectory with its dictionary content plugged in. -/
def trajOfH (o : HTraj) (aux : List (String × Int)) : Traj :=
  { t := o.t, y := o.y, q := o.q, p := o.p, nu := o.nu, k := o.k, lam := o.lam
    aux := aux, converged := o.converged }

/-- Heap form of a trajectory value, its aux stored at the given address. -/
def hOfTraj (tr : Traj) (auxAddr : Nat) : HTraj :=
  { t := tr.t, y := tr.y, q := tr.q, p := tr.p, nu := tr.nu, k := tr.k, lam := tr.lam
    auxAddr := auxAddr, converged := tr.converged }

/-- Result record of the heap-level solve: the solution is an address. -/
structure HBVPResult where
  solAddr : Nat
  success : Bool
  message : String
  rms_residuals : Vec
  niter : Nat
deriving DecidableEq

/-- Heap-level `solve`, mirroring the object operations of lines 29-137:
`solinit = copy.deepcopy(solinit)` allocates a fresh trajectory with a
fresh aux dictionary; the pipeline runs on that value;
`sol = copy.copy(solinit)` allocates another trajectory sharing the deep
copy's aux dictionary; the attribute assignments land on `sol`; the two
aux writes mutate the shared dictionary.  The caller's object is only ever
read.  Returns `none` when the caller address dangles (an AttributeError
in Python, impossible for a live object). -/
def solveH (engine : EngineInput → EngineOutput) (self : Solver) (h0 : Heap)
    (caller : Nat) : Option (Heap × Solver × HBVPResult) :=
  match lookupT h0 caller with
  | none => none
  | some cObj =>
    match lookupD h0 cObj.auxAddr with
    | none => none
    | some cAux =>
      let a1 := allocD h0 cAux
      let a2 := allocT a1.1 { cObj with auxAddr := a1.2 }
      let solinit := trajOfH cObj cAux
      let pr := buildEngineInput self solinit
      let out := engine pr.2
      let solVal := composeSolFields solinit out
      let a3 := allocT a2.1 (hOfTraj solVal a1.2)
      let h4 := updateD a3.1 a1.2 "comp_time" 0
      let h5 := updateD h4 a1.2 "niter" (Int.ofNat out.niter)
      some (h5, pr.1,
        { solAddr := a3.2, success := out.success, message := out.message
          rms_residuals := out.rms_residuals, niter := out.niter })

/-! Concrete objects used by the closed counterexample and witness
theorems. -/

/-- Analytic dynamics Jacobian returning the 1 x 1 blocks [[5]] and [[7]]:
well-shaped for a problem with one state and one dynamic parameter. -/
def jacConst : Vec → Vec → Vec → Mat × NDArr := fun _ _ _ => ([[5]], .m [[7]])

/-- Analytic dynamics Jacobian whose raw parameter block is the 1-D vector
[7], the degenerate rank collapse for one state and one parameter. -/
def jacVec : Vec → Vec → Vec → Mat × NDArr := fun _ _ _ => ([[5]], .v [7])

/-- Example solver: one state, derivative y+1, quadrature integrand 100. -/
def exSolver : Solver :=
  { derivative_function := fun v _ _ => [v.headD 0 + 1]
    quadrature_function := fun _ _ _ => [100]
    boundarycondition_function := fun _ => []
    derivative_function_jac := none
    boundarycondition_function_jac := none
    max_nodes := 1000 }

/-- Example guess with an empty quadrature matrix. -/
def exGuessNoQ : Traj :=
  { t := [0, 1], y := [[1], [2]], q := [], p := [], nu := [], k := []
    lam := [[0], [0]], aux := [], converged := false }

/-- Example guess with one quadrature column. -/
def exGuessQ : Traj :=
  { t := [0, 1], y := [[1], [2]], q := [[5], [6]], p := [], nu := [], k := []
    lam := [[0], [0]], aux := [], converged := false }

/-- Probing engine: reports the value of the dynamics closure at a fixed
probe point through the rms_residuals field, making the behaviour of the
assembled closure observable in the returned record. -/
def probeEngine : EngineInput → EngineOutput := fun ei =>
  { x := ei.t, y := ei.y0, p := none, success := false, message := ""
    rms_residuals := (ei.fn [0] [[1], [5]] []).flatten, niter := 0 }

/-- Constant failing engine for witness runs. -/
def constEngine : EngineInput → EngineOutput := fun _ =>
  { x := [], y := [], p := none, success := false
    message := "mesh growth exceeded max_nodes", rms_residuals := [], niter := 0 }

/-- Example heap trajectory object whose aux dictionary lives at address 1. -/
def exHTraj : HTraj :=
  { t := [0, 1], y := [[1], [2]], q := [], p := [], nu := [], k := []
    lam := [[0], [0]], auxAddr := 1, converged := false }

/-- Example heap: the caller's object at address 0, its aux dictionary at
address 1. -/
def exHeap : Heap := { trajs := [(0, exHTraj)], dicts := [(1, [("a", 5)])], fresh := 2 }

/-- Example engine output with one state column and one quadrature column
(for the Result Composer claims). -/
def exEngineOut : EngineOutput :=
  { x := [0, 1], y := [[1, 2], [3, 4]], p := some [], success := true
    message := "converged", rms_residuals := [0], niter := 3 }

/-! Helper lemmas about list indexing and the transpose. -/

theorem getD_map_lt {α β : Type} (f : α → β) (l : List α) (i : Nat) (h : i < l.length)
    (d : β) (d' : α) : (l.map f).getD i d = f (l.getD i d') := by
  rw [List.getD_eq_getElem?_getD, List.getD_eq_getElem?_getD, List.getElem?_map,
    List.getElem?_eq_getElem h]
  rfl

theorem getD_range_lt (n i : Nat) (h : i < n) (d : Nat) : (List.range n).getD i d = i := by
  rw [List.getD_eq_getElem?_getD, List.getElem?_range h]
  rfl

theorem getD_mem {α : Type} (l : List α) (i : Nat) (h : i < l.length) (d : α) :
    l.getD i d ∈ l := by
  rw [List.getD_eq_getElem?_getD, List.getElem?_eq_getElem h]
  exact List.getElem_mem h

theorem map_range_getD {α : Type} (d : α) (l : List α) :
    (List.range l.length).map (fun j => l.getD j d) = l := by
  induction l with
  | nil => rfl
  | cons a tl ih =>
    rw [List.length_cons, List.range_succ_eq_map, List.map_cons, List.map_map]
    have h1 : ((fun j => (a :: tl).getD j d) ∘ Nat.succ) = fun j => tl.getD j d := by
      funext j
      rfl
    rw [h1, ih]
    rfl

theorem length_transposeM (A : Mat) : (transposeM A).length = ncols A := by
  simp [transposeM]

theorem transposeM_getD (A : Mat) (j : Nat) (h : j < ncols A) :
    (transposeM A).getD j [] = A.map (fun r => r.getD j 0) := by
  unfold transposeM
  rw [getD_map_lt _ _ j (by simpa using h) [] 0, getD_range_lt _ _ h]

theorem transposeM_row_length (A : Mat) (j : Nat) (h : j < ncols A) :
    ((transposeM A).getD j []).length = A.length := by
  rw [transposeM_getD A j h, List.length_map]

theorem transposeM_transposeM (A : Mat) (w : Nat) (hw : 0 < w)
    (hr : ∀ r ∈ A, r.length = w) : transposeM (transposeM A) = A := by
  cases A with
  | nil => rfl
  | cons r0 A' =>
    have hnc : ncols (r0 :: A') = w := hr r0 (by simp)
    have hlen : (transposeM (r0 :: A')).length = w := by rw [length_transposeM, hnc]
    have hncT : ncols (transposeM (r0 :: A')) = (r0 :: A').length := by
      unfold ncols
      unfold transposeM
      rw [hnc]
      obtain ⟨w', rfl⟩ : ∃ w', w = w' + 1 := ⟨w - 1, by omega⟩
      rw [List.range_succ_eq_map, List.map_cons]
      simp
    conv_lhs => rw [transposeM]
    rw [hncT]
    have hinner : ∀ i, i < (r0 :: A').length →
        (transposeM (r0 :: A')).map (fun r => r.getD i 0) = (r0 :: A').getD i [] := by
      intro i hi
      unfold transposeM
      rw [hnc, List.map_map]
      have h2 : ∀ j ∈ List.range w,
          ((fun r => r.getD i 0) ∘ fun j => (r0 :: A').map (fun r => r.getD j 0)) j
            = ((r0 :: A').getD i []).getD j 0 := by
        intro j _
        exact getD_map_lt _ _ i hi 0 []
      rw [List.map_congr_left h2]
      have h3 : ((r0 :: A').getD i []).length = w :=
        hr _ (getD_mem _ i hi [])
      rw [← h3]
      exact map_range_getD 0 _
    have h4 : ∀ i ∈ List.range (r0 :: A').length,
        (transposeM (r0 :: A')).map (fun r => r.getD i 0) = (r0 :: A').getD i [] := by
      intro i hi
      exact hinner i (List.mem_range.mp hi)
    rw [List.map_congr_left h4]
    exact map_range_getD [] _

/-! Helper lemmas about the dynamics-Jacobian loop. -/

theorem optMapList_mem {α β : Type} (f : α → Option β) :
    ∀ (l : List α) (bs : List β), optMapList f l = some bs →
      ∀ b ∈ bs, ∃ a ∈ l, f a = some b := by
  intro l
  induction l with
  | nil =>
    intro bs h b hb
    simp [optMapList] at h
    subst h
    simp at hb
  | cons a tl ih =>
    intro bs h b hb
    unfold optMapList at h
    cases hfa : f a with
    | none => rw [hfa] at h; simp at h
    | some b0 =>
      rw [hfa] at h
      cases htl : optMapList f tl with
      | none => rw [htl] at h; simp at h
      | some bs' =>
        rw [htl] at h
        simp at h
        subst h
        rcases List.mem_cons.mp hb with hb0 | hbs
        · exact ⟨a, by simp, by rw [hfa, hb0]⟩
        · obtain ⟨a', ha', hfa'⟩ := ih bs' htl b hbs
          exact ⟨a', by simp [ha'], hfa'⟩

theorem broadcastTo_rows (A : Mat) (n m : Nat) (B : Mat) (h : broadcastTo A n m = some B) :
    ∀ row ∈ B, ∃ r ∈ A, bcastRow r m = some row := by
  intro row hrow
  unfold broadcastTo at h
  cases hm : optMapList (fun r => bcastRow r m) A with
  | none => rw [hm] at h; simp at h
  | some rows =>
    rw [hm] at h
    dsimp only at h
    by_cases h1 : rows.length = n
    · rw [if_pos h1] at h
      have hB : rows = B := by injection h
      exact optMapList_mem _ A rows hm row (hB ▸ hrow)
    · rw [if_neg h1] at h
      by_cases h2 : rows.length = 1
      · rw [if_pos h2] at h
        have hB : List.replicate n (rows.headD []) = B := by injection h
        have hrow' : row = rows.headD [] :=
          List.eq_of_mem_replicate (hB ▸ hrow)
        obtain ⟨b, hb⟩ := List.length_eq_one.mp h2
        have hmem : rows.headD [] ∈ rows := by rw [hb]; simp
        exact optMapList_mem _ A rows hm row (hrow' ▸ hmem)
      · rw [if_neg h2] at h
        simp at h

theorem hstackPad_some (dp : NDArr) (nstates nnondyn : Nat) (padded : Mat)
    (h : hstackPad dp nstates nnondyn = some padded) :
    ∃ A, dp = .m A ∧ (∀ r ∈ A, r.length = ncols A)
      ∧ padded = A.map (fun r => r ++ List.replicate nnondyn 0) := by
  cases dp with
  | v xs => simp [hstackPad] at h
  | m A =>
    unfold hstackPad at h
    dsimp only at h
    split at h
    · rename_i hc
      refine ⟨A, rfl, ?_, by injection h with h'; exact h'.symm⟩
      intro r hr
      have := List.all_eq_true.mp hc.2 r hr
      simpa using this
    · simp at h

theorem bcast_padded_row (rr : Vec) (ndyn nnondyn : Nat) (hn : 0 < nnondyn) (row : Vec)
    (h : bcastRow (rr ++ List.replicate nnondyn 0) (ndyn + nnondyn) = some row) :
    row.drop ndyn = List.replicate nnondyn 0 := by
  unfold bcastRow at h
  by_cases h1 : (rr ++ List.replicate nnondyn (0 : Int)).length = ndyn + nnondyn
  · rw [if_pos h1] at h
    have hrow : rr ++ List.replicate nnondyn (0 : Int) = row := by injection h
    have hrr : rr.length = ndyn := by
      simp [List.length_append] at h1
      omega
    rw [← hrow, ← hrr, List.drop_left]
  · rw [if_neg h1] at h
    by_cases h2 : (rr ++ List.replicate nnondyn (0 : Int)).length = 1
    · rw [if_pos h2] at h
      have hrr0 : rr = [] ∧ nnondyn = 1 := by
        simp [List.length_append] at h2
        constructor
        · exact List.eq_nil_of_length_eq_zero (by omega)
        · omega
      have hhead : (rr ++ List.replicate nnondyn (0 : Int)).headD 0 = 0 := by
        rw [hrr0.1, hrr0.2]
        rfl
      have hrow : List.replicate (ndyn + nnondyn) ((rr ++ List.replicate nnondyn (0 : Int)).headD 0) = row := by
        injection h
      rw [← hrow, hhead, List.drop_replicate]
      congr 1
      omega
    · rw [if_neg h2] at h
      simp at h

theorem jacNode_dp_zero (jac : Vec → Vec → Vec → Mat × NDArr) (nstates ndyn nnondyn n : Nat)
    (k params yi : Vec) (dy dp : Mat) (hn : 0 < nnondyn)
    (h : jacNode jac nstates ndyn nnondyn n k params yi = some (dy, dp)) :
    ∀ row ∈ dp, row.drop ndyn = List.replicate nnondyn 0 := by
  intro row hrow
  unfold jacNode at h
  dsimp only at h
  split at h
  · simp at h
  rename_i dy' h1
  split at h
  · simp at h
  rename_i padded h2
  split at h
  · simp at h
  rename_i dp' h3
  have hdp : dp' = dp := by
    injection h with h4
    exact congrArg Prod.snd h4
  obtain ⟨A, _, hrect, hpadded⟩ := hstackPad_some _ _ _ _ h2
  obtain ⟨r', hr', hb⟩ := broadcastTo_rows padded n (ndyn + nnondyn) dp' h3 row (hdp ▸ hrow)
  rw [hpadded] at hr'
  obtain ⟨rr, hrr, hreq⟩ := List.mem_map.mp hr'
  exact bcast_padded_row rr ndyn nnondyn hn row (hreq ▸ hb)

theorem funJacLoop_calls_extends (jac : Vec → Vec → Vec → Mat × NDArr)
    (nstates ndyn nnondyn n T : Nat) (k params : Vec) :
    ∀ (l : List Vec) (ii : Nat), ∃ rest,
      l.map (fun yi => (yi, params.take ndyn))
        = (funJacLoop jac nstates ndyn nnondyn n T k params ii l).1 ++ rest := by
  intro l
  induction l with
  | nil => exact fun ii => ⟨[], rfl⟩
  | cons yi tl ih =>
    intro ii
    by_cases hT : ii < T
    · cases hj : jacNode jac nstates ndyn nnondyn n k params yi with
      | none =>
        refine ⟨tl.map (fun yi => (yi, params.take ndyn)), ?_⟩
        simp [funJacLoop, hT, hj]
      | some s =>
        obtain ⟨rest, hrest⟩ := ih (ii + 1)
        refine ⟨rest, ?_⟩
        simp only [funJacLoop, if_pos hT, hj, List.map_cons]
        rw [hrest]
        rfl
    · refine ⟨tl.map (fun yi => (yi, params.take ndyn)), ?_⟩
      simp [funJacLoop, hT]

theorem funJacLoop_dp_zero (jac : Vec → Vec → Vec → Mat × NDArr)
    (nstates ndyn nnondyn n T : Nat) (k params : Vec) (hn : 0 < nnondyn) :
    ∀ (l : List Vec) (ii : Nat) (slices : List (Mat × Mat)),
      (funJacLoop jac nstates ndyn nnondyn n T k params ii l).2 = some slices →
      ∀ sl ∈ slices, ∀ row ∈ sl.2, row.drop ndyn = List.replicate nnondyn 0 := by
  intro l
  induction l with
  | nil =>
    intro ii slices h sl hsl
    simp [funJacLoop] at h
    subst h
    simp at hsl
  | cons yi tl ih =>
    intro ii slices h sl hsl
    by_cases hT : ii < T
    · rw [funJacLoop, if_pos hT] at h
      cases hj : jacNode jac nstates ndyn nnondyn n k params yi with
      | none => rw [hj] at h; simp at h
      | some s =>
        rw [hj] at h
        dsimp only at h
        cases htl : (funJacLoop jac nstates ndyn nnondyn n T k params (ii + 1) tl).2 with
        | none => rw [htl] at h; simp at h
        | some slices' =>
          rw [htl] at h
          simp at h
          subst h
          rcases List.mem_cons.mp hsl with h0 | h1
          · rw [h0]
            exact jacNode_dp_zero jac nstates ndyn nnondyn n k params yi s.1 s.2 hn
              (by rw [hj, Prod.mk.eta])
          · exact ih (ii + 1) slices' htl sl h1
    · rw [funJacLoop, if_neg hT] at h
      simp at h

/-! Claim theorems. -/

/-- Claim C1 (code bug): `solve` is NOT stateless.  Line 43 of SPBVP.py
assigns `self.quadrature_function = return_nil` whenever the guess has an
empty quadrature matrix, permanently overwriting the solver attribute.  A
first call on a quadrature-free guess therefore changes the behaviour of a
later call whose guess has nquads > 0: the probing engine observes the
dynamics closure of the second call producing [2] (quadrature rows from
the nil substitute) instead of [2, 100] (rows from the original quadrature
function).  This theorem evaluates the two-call sequence at the failing
input and shows the second call's result depends on the first call. -/
theorem solve_second_call_depends_on_first :
    (solve probeEngine ((solve probeEngine exSolver exGuessNoQ).1) exGuessQ).2.rms_residuals
      ≠ (solve probeEngine exSolver exGuessQ).2.rms_residuals
    ∧ (solve probeEngine ((solve probeEngine exSolver exGuessNoQ).1) exGuessQ).2.rms_residuals = [2]
    ∧ (solve probeEngine exSolver exGuessQ).2.rms_residuals = [2, 100] := by
  refine ⟨?_, by decide, by decide⟩
  decide

/-- Claim C2, counterexample: the dynamics-Jacobian closure does NOT call
the analytic function with the node's state sub-vector.  With nstates = 1
and a stacked column [3, 9] (one state entry and one quadrature entry),
the recorded call passes the full column [3, 9], which differs from the
state sub-vector [3, 9].take 1 = [3]; the quadrature entry 9 reaches the
analytic function. -/
theorem fun_jac_full_column_cex :
    (funJacRun jacConst 1 1 0 [] [0] [[3], [9]] [4]).calls = [([3, 9], [4])]
      ∧ ([3, 9] : Vec) ≠ ([3, 9] : Vec).take 1 := by
  exact ⟨by decide, by decide⟩

/-- Claim C2, amended: for every call the dynamics-Jacobian closure makes
to the analytic function, the state argument is the node's FULL stacked
column (unsliced, so it coincides with the state sub-vector exactly when
there are no quadrature entries) and the parameter argument is the first
ndyn entries of the parameter vector: the calls made are an initial
segment of the per-node list of such argument pairs. -/
theorem fun_jac_call_arguments (jac : Vec → Vec → Vec → Mat × NDArr)
    (nstates ndyn nnondyn : Nat) (k t : Vec) (y : Mat) (params : Vec) :
    ∃ rest, (transposeM y).map (fun yi => (yi, params.take ndyn))
      = (funJacRun jac nstates ndyn nnondyn k t y params).calls ++ rest := by
  unfold funJacRun
  exact funJacLoop_calls_extends jac nstates ndyn nnondyn
    ((transposeM y).headD []).length t.length k params (transposeM y) 0

/-- Claim C3, counterexample: when nstates == 1 and the analytic function's
raw parameter-sensitivity result is the 1-D vector [7], the promotion guard
`nstates > 1` does not fire — the block stays 1-D and the padding step
(np.hstack with a 2-D zero block) raises, so the closure errors instead of
succeeding. -/
theorem promote_one_state_cex :
    (funJacRun jacVec 1 1 0 [] [0] [[3]] [4]).out = none
      ∧ promoteDp 1 (NDArr.v [7]) = NDArr.v [7]
      ∧ hstackPad (promoteDp 1 (NDArr.v [7])) 1 0 = none := by
  exact ⟨by decide, by decide, by decide⟩

/-- Claim C3, amended: the promotion of a 1-D raw parameter-sensitivity
block to a single-column matrix happens when nstates > 1 (not when
nstates == 1): in that case the padding succeeds and yields the column of
the raw entries with nnondyn zero columns appended.  When nstates == 1 the
1-D block is left unpromoted and the padding step fails (see the
counterexample). -/
theorem promote_when_many_states (nstates nnondyn : Nat) (xs : Vec)
    (h1 : 1 < nstates) (h2 : xs.length = nstates) :
    hstackPad (promoteDp nstates (NDArr.v xs)) nstates nnondyn
      = some (xs.map (fun x => x :: List.replicate nnondyn (0 : Int))) := by
  obtain ⟨x0, xs', rfl⟩ : ∃ x0 xs', xs = x0 :: xs' := by
    cases xs with
    | nil => simp at h2; omega
    | cons a l => exact ⟨a, l, rfl⟩
  unfold promoteDp
  dsimp only
  rw [if_pos h1]
  unfold hstackPad
  dsimp only
  rw [if_pos]
  · congr 1
    rw [List.map_map]
    rfl
  · constructor
    · simpa using h2
    · apply List.all_eq_true.mpr
      intro r hr
      obtain ⟨x, _, hx⟩ := List.mem_map.mp hr
      simp [← hx, ncols]

/-- Claim C3, witness: at nstates = 2, nnondyn = 1 and raw 1-D block
[7, 8], promotion and padding produce the padded column [[7, 0], [8, 0]]. -/
theorem promote_when_many_states_witness :
    hstackPad (promoteDp 2 (NDArr.v [7, 8])) 2 1 = some [[7, 0], [8, 0]] := by
  have h := promote_when_many_states 2 1 [7, 8] (by omega) (by decide)
  simpa using h

/-- Claim C4, counterexample: an input with nquads = 1 > 0 on which the
dynamics-Jacobian closure evaluates WITHOUT error.  With nstates = 1 the
analytic blocks are 1 x 1 and numpy broadcasting stretches them into the
(nstates + nquads)-row slices, so no shape error is raised: the claim that
every nquads > 0 input raises is false.  The second conjunct records that
the stacked columns indeed have nstates + nquads = 2 entries. -/
theorem fun_jac_quads_no_error_cex :
    (funJacRun jacConst 1 1 0 [] [0] [[3], [9]] [4]).out
        = some (.pair [[[5, 5], [5, 5]]] [[[7], [7]]])
      ∧ ∀ r ∈ transposeM [[3], [9]], r.length = 1 + 1 := by
  exact ⟨by decide, by decide⟩

/-- Claim C4, amended: the dynamics-Jacobian closure allocates its per-node
slices with n = nstates + nquads rows while the analytic function returns
nstates-row blocks, so for every input with nquads > 0 AND nstates > 1 the
per-node slice assignment raises a shape-mismatch error (the closure can
evaluate without error only when nquads == 0, except that nstates == 1
escapes via numpy broadcasting, see the counterexample). -/
theorem fun_jac_errors_with_quads (jac : Vec → Vec → Vec → Mat × NDArr)
    (nstates nquads ndyn nnondyn : Nat) (k t params : Vec) (y : Mat)
    (h1 : 1 < nstates) (h2 : 0 < nquads)
    (hcols : ∀ r ∈ transposeM y, r.length = nstates + nquads)
    (hne : transposeM y ≠ [])
    (hjac : ∀ v p, ((jac v p k).1).length = nstates
              ∧ ∀ row ∈ (jac v p k).1, row.length = nstates) :
    (funJacRun jac nstates ndyn nnondyn k t y params).out = none := by
  unfold funJacRun
  obtain ⟨y0, rest, hyT⟩ : ∃ y0 rest, transposeM y = y0 :: rest := by
    cases hc : transposeM y with
    | nil => exact absurd hc hne
    | cons a l => exact ⟨a, l, rfl⟩
  rw [hyT]
  dsimp only
  have hn : (y0 :: rest).headD [] = y0 := rfl
  have hny0 : y0.length = nstates + nquads := hcols y0 (by rw [hyT]; simp)
  by_cases hT : 0 < t.length
  · have hjn : jacNode jac nstates ndyn nnondyn ((y0 :: rest).headD []).length k params y0
        = none := by
      unfold jacNode
      dsimp only
      obtain ⟨a0, A', hA⟩ : ∃ a0 A', (jac y0 (params.take ndyn) k).1 = a0 :: A' := by
        cases hc : (jac y0 (params.take ndyn) k).1 with
        | nil =>
          have := (hjac y0 (params.take ndyn)).1
          rw [hc] at this
          simp at this
          omega
        | cons a l => exact ⟨a, l, rfl⟩
      have hb : broadcastTo (jac y0 (params.take ndyn) k).1
          ((y0 :: rest).headD []).length ((y0 :: rest).headD []).length = none := by
        unfold broadcastTo
        rw [hA]
        have ha0len : a0.length = nstates := by
          refine (hjac y0 (params.take ndyn)).2 a0 ?_
          rw [hA]
          simp
        have hbr : bcastRow a0 ((y0 :: rest).headD []).length = none := by
          unfold bcastRow
          rw [hn, if_neg, if_neg] <;> rw [ha0len] <;> omega
        unfold optMapList
        rw [hbr]
      rw [hb]
    rw [funJacLoop, if_pos hT, hjn]
    rfl
  · rw [funJacLoop, if_neg hT]
    rfl

/-- Claim C4 (amended), witness: a concrete nstates = 2, nquads = 1 input
with a well-shaped analytic Jacobian on which the closure errors. -/
theorem fun_jac_errors_with_quads_witness :
    (funJacRun (fun _ _ _ => ([[1, 2], [3, 4]], .m [[5], [6]])) 2 1 0 [] [0, 1]
        [[1, 2], [3, 4], [5, 6]] [9]).out = none := by
  have h := fun_jac_errors_with_quads (fun _ _ _ => ([[1, 2], [3, 4]], .m [[5], [6]]))
    2 1 1 0 [] [0, 1] [9] [[1, 2], [3, 4], [5, 6]]
    (by omega) (by omega) (by decide) (by decide)
    (fun v p => ⟨rfl, by
      intro row hr
      dsimp only at hr
      rcases List.mem_cons.mp hr with rfl | hr
      · rfl
      rcases List.mem_cons.mp hr with rfl | hr
      · rfl
      simp at hr⟩)
  exact h

/-- Claim C6: when the dynamics-Jacobian closure evaluates without error,
it returns only the state-sensitivity array when ndyn + nnondyn == 0, and
both the state- and parameter-sensitivity arrays when ndyn + nnondyn > 0. -/
theorem fun_jac_output_arity (jac : Vec → Vec → Vec → Mat × NDArr)
    (nstates ndyn nnondyn : Nat) (k t : Vec) (y : Mat) (params : Vec) (o : FunJacOut)
    (h : (funJacRun jac nstates ndyn nnondyn k t y params).out = some o) :
    (ndyn + nnondyn = 0 → ∃ d, o = .single d)
      ∧ (0 < ndyn + nnondyn → ∃ d P, o = .pair d P) := by
  unfold funJacRun at h
  dsimp only at h
  unfold funJacAssemble at h
  split at h
  · simp at h
  · rename_i slices heq
    by_cases h0 : ndyn + nnondyn = 0
    · rw [if_pos h0] at h
      injection h with h'
      exact ⟨fun _ => ⟨_, h'.symm⟩, fun hpos => absurd h0 (by omega)⟩
    · rw [if_neg h0] at h
      injection h with h'
      exact ⟨fun hz => absurd hz h0, fun _ => ⟨_, _, h'.symm⟩⟩

/-- Claim C6, witness: a parameter-free run (ndyn = nnondyn = 0) returning
only the state-sensitivity array. -/
theorem fun_jac_output_arity_witness :
    (funJacRun (fun _ _ _ => ([[5]], .m [[]])) 1 0 0 [] [0] [[3]] []).out
        = some (FunJacOut.single [[[5]]])
      ∧ ∃ d, FunJacOut.single [[[5]]] = FunJacOut.single d := by
  refine ⟨by decide, ?_⟩
  exact (fun_jac_output_arity (fun _ _ _ => ([[5]], .m [[]])) 1 0 0 [] [0] [[3]] []
    (FunJacOut.single [[[5]]]) (by decide)).1 rfl

/-- Claim C7: whenever nnondyn > 0 and the dynamics-Jacobian closure
evaluates without error, its output is the pair form, and for every node
slice of the parameter-sensitivity array every row ends with the nnondyn
padded zero columns (entries after the first ndyn are exactly zero). -/
theorem fun_jac_padding_zero (jac : Vec → Vec → Vec → Mat × NDArr)
    (nstates ndyn nnondyn : Nat) (k t : Vec) (y : Mat) (params : Vec) (o : FunJacOut)
    (hn : 0 < nnondyn)
    (h : (funJacRun jac nstates ndyn nnondyn k t y params).out = some o) :
    ∃ d P, o = .pair d P
      ∧ ∀ M ∈ P, ∀ row ∈ M, row.drop ndyn = List.replicate nnondyn 0 := by
  unfold funJacRun at h
  dsimp only at h
  unfold funJacAssemble at h
  split at h
  · simp at h
  · rename_i slices heq
    rw [if_neg (by omega)] at h
    refine ⟨_, _, by injection h with h'; exact h'.symm, ?_⟩
    intro M hM row hrow
    rcases List.mem_append.mp hM with hM1 | hM2
    · obtain ⟨sl, hsl, hMeq⟩ := List.mem_map.mp hM1
      exact funJacLoop_dp_zero jac nstates ndyn nnondyn
        (((transposeM y).headD []).length) t.length k params hn (transposeM y) 0 slices heq
        sl hsl row (hMeq ▸ hrow)
    · have hMz : M = zeros2 (((transposeM y).headD []).length) (ndyn + nnondyn) :=
        List.eq_of_mem_replicate hM2
      have hrowz : row = List.replicate (ndyn + nnondyn) (0 : Int) := by
        rw [hMz] at hrow
        exact List.eq_of_mem_replicate hrow
      rw [hrowz, List.drop_replicate]
      congr 1
      omega

/-- Claim C7, witness: with ndyn = nnondyn = 1 the single node slice of the
parameter-sensitivity output is [[7, 0]]: its row ends in the padded 0. -/
theorem fun_jac_padding_zero_witness :
    ∃ d P, FunJacOut.pair [[[5]]] [[[7, 0]]] = .pair d P
      ∧ ∀ M ∈ P, ∀ row ∈ M, row.drop 1 = List.replicate 1 0 := by
  exact fun_jac_padding_zero jacConst 1 1 1 [] [0] [[3]] [4, 9]
    (FunJacOut.pair [[[5]]] [[[7, 0]]]) (by omega) (by decide)

/-- Claim C8: when nquads > 0, each per-node column of the dynamics
closure handed to the engine is the vertical stack of the derivative-
function result (on the node's first nstates state entries and the first
ndyn parameters) above the quadrature-function result; when nquads == 0
the closure output consists of the derivative results only — the output
is identical for any substituted quadrature function. -/
theorem fun_stacks_deriv_quad (s : Solver) (g : Traj) (t : Vec) (y : Mat) (params : Vec)
    (nd nq : Nat)
    (hd : ∀ v p, (s.derivative_function v p g.k).length = nd)
    (hq : ∀ v p, (s.quadrature_function v p g.k).length = nq)
    (hnd : 0 < nd) :
    (0 < msize g.q →
      ∀ j, j < (transposeM y).length →
        (transposeM ((buildEngineInput s g).2.fn t y params)).getD j []
          = s.derivative_function (((transposeM y).getD j []).take (ncols g.y))
              (params.take g.p.length) g.k
            ++ s.quadrature_function (((transposeM y).getD j []).take (ncols g.y))
              (params.take g.p.length) g.k)
    ∧ (msize g.q = 0 →
        (∀ qf, (buildEngineInput { s with quadrature_function := qf } g).2.fn t y params
             = (buildEngineInput s g).2.fn t y params)
        ∧ (buildEngineInput s g).2.fn t y params
            = transposeM ((transposeM y).map (fun yi =>
                s.derivative_function (yi.take (ncols g.y)) (params.take g.p.length) g.k))) := by
  constructor
  · intro hq0 j hj
    have hfn : (buildEngineInput s g).2.fn t y params
        = transposeM ((transposeM y).map (fun yi =>
            s.derivative_function (yi.take (ncols g.y)) (params.take g.p.length) g.k
              ++ s.quadrature_function (yi.take (ncols g.y)) (params.take g.p.length) g.k)) := by
      simp [buildEngineInput, hq0]
    rw [hfn]
    have hrect : ∀ r ∈ (transposeM y).map (fun yi =>
        s.derivative_function (yi.take (ncols g.y)) (params.take g.p.length) g.k
          ++ s.quadrature_function (yi.take (ncols g.y)) (params.take g.p.length) g.k),
        r.length = nd + nq := by
      intro r hr
      obtain ⟨yi, _, hyi⟩ := List.mem_map.mp hr
      rw [← hyi, List.length_append, hd, hq]
    rw [transposeM_transposeM _ (nd + nq) (by omega) hrect]
    exact getD_map_lt _ _ j hj [] []
  · intro hq0
    have hnot : ¬ 0 < msize g.q := by omega
    constructor
    · intro qf
      simp [buildEngineInput, hnot]
    · simp [buildEngineInput, hnot]

/-- Claim C8, witness: evaluated for the example solver and quadrature
guess at the probe point [[1], [5]], node 0: the output column stacks the
derivative result over the quadrature result. -/
theorem fun_stacks_deriv_quad_witness :
    (transposeM ((buildEngineInput exSolver exGuessQ).2.fn [0] [[1], [5]] [])).getD 0 []
      = exSolver.derivative_function (((transposeM [[1], [5]]).getD 0 []).take (ncols exGuessQ.y))
          (([] : Vec).take exGuessQ.p.length) exGuessQ.k
        ++ exSolver.quadrature_function (((transposeM [[1], [5]]).getD 0 []).take (ncols exGuessQ.y))
          (([] : Vec).take exGuessQ.p.length) exGuessQ.k := by
  exact (fun_stacks_deriv_quad exSolver exGuessQ [0] [[1], [5]] [] 1 1
    (fun v p => rfl) (fun v p => rfl) (by omega)).1 (by decide) 0 (by decide)

/-- Claim C9: the Result Composer splits an engine state matrix of width
nstates + nquads so that y is exactly the first nstates columns, q exactly
the next nquads columns (each node row of y and q concatenates back to the
node's full column: nothing shared, nothing dropped), lam is a zero matrix
of the same shape as the new y, and an engine parameter vector is split
into p (first ndyn entries) and nu (remaining nnondyn entries), both empty
when the engine returns none. -/
theorem compose_splits_columns (e : EngineOutput) (s : Solver) (g : Traj)
    (hy : e.y.length = ncols g.y + (if 0 < msize g.q then ncols g.q else 0))
    (hp : ∀ pv, e.p = some pv → pv.length = g.p.length + g.nu.length) :
    (∀ j, j < (transposeM e.y).length →
        ((solve (fun _ => e) s g).2.sol.y.getD j []).length = ncols g.y
          ∧ ((solve (fun _ => e) s g).2.sol.q.getD j []).length
              = (if 0 < msize g.q then ncols g.q else 0)
          ∧ ((solve (fun _ => e) s g).2.sol.y.getD j [])
              ++ ((solve (fun _ => e) s g).2.sol.q.getD j [])
              = (transposeM e.y).getD j [])
      ∧ (solve (fun _ => e) s g).2.sol.y.length = (transposeM e.y).length
      ∧ (solve (fun _ => e) s g).2.sol.q.length = (transposeM e.y).length
      ∧ (solve (fun _ => e) s g).2.sol.lam.length = (solve (fun _ => e) s g).2.sol.y.length
      ∧ (∀ j, j < (solve (fun _ => e) s g).2.sol.lam.length →
          ((solve (fun _ => e) s g).2.sol.lam.getD j []).length
              = ((solve (fun _ => e) s g).2.sol.y.getD j []).length
            ∧ ∀ x ∈ (solve (fun _ => e) s g).2.sol.lam.getD j [], x = 0)
      ∧ (∀ pv, e.p = some pv →
          (solve (fun _ => e) s g).2.sol.p = pv.take g.p.length
            ∧ (solve (fun _ => e) s g).2.sol.nu = pv.drop g.p.length
            ∧ (solve (fun _ => e) s g).2.sol.p ++ (solve (fun _ => e) s g).2.sol.nu = pv)
      ∧ (e.p = none →
          (solve (fun _ => e) s g).2.sol.p = [] ∧ (solve (fun _ => e) s g).2.sol.nu = []) := by
  have hsoly : (solve (fun _ => e) s g).2.sol.y
      = (transposeM e.y).map (fun r => r.take (ncols g.y)) := rfl
  have hsolq : (solve (fun _ => e) s g).2.sol.q
      = (transposeM e.y).map (fun r =>
          (r.drop (ncols g.y)).take (if 0 < msize g.q then ncols g.q else 0)) := rfl
  have hsollam : (solve (fun _ => e) s g).2.sol.lam
      = ((transposeM e.y).map (fun r => r.take (ncols g.y))).map
          (fun r => r.map (fun _ => (0 : Int))) := rfl
  have hsolp : (solve (fun _ => e) s g).2.sol.p
      = (match e.p with | some pv => pv.take g.p.length | none => []) := rfl
  have hsolnu : (solve (fun _ => e) s g).2.sol.nu
      = (match e.p with
          | some pv => (pv.drop g.p.length).take g.nu.length
          | none => []) := rfl
  have hrowlen : ∀ j, j < (transposeM e.y).length →
      ((transposeM e.y).getD j []).length
        = ncols g.y + (if 0 < msize g.q then ncols g.q else 0) := by
    intro j hj
    rw [length_transposeM] at hj
    rw [transposeM_row_length e.y j hj, hy]
  refine ⟨?_, ?_, ?_, ?_, ?_, ?_, ?_⟩
  · intro j hj
    have hjy := hj
    have hrl := hrowlen j hj
    refine ⟨?_, ?_, ?_⟩
    · rw [hsoly, getD_map_lt _ _ j hj [] [], List.length_take, hrl]
      omega
    · rw [hsolq, getD_map_lt _ _ j hj [] [], List.length_take, List.length_drop, hrl]
      omega
    · rw [hsoly, hsolq, getD_map_lt _ _ j hj [] [], getD_map_lt _ _ j hj [] []]
      have hqfull : (((transposeM e.y).getD j []).drop (ncols g.y)).take
            (if 0 < msize g.q then ncols g.q else 0)
          = ((transposeM e.y).getD j []).drop (ncols g.y) := by
        apply List.take_of_length_le
        rw [List.length_drop, hrl]
        omega
      rw [hqfull, List.take_append_drop]
  · rw [hsoly, List.length_map]
  · rw [hsolq, List.length_map]
  · rw [hsollam, hsoly, List.length_map, List.length_map]
  · intro j hj
    rw [hsollam, List.length_map, List.length_map] at hj
    have hlt : j < ((transposeM e.y).map (fun r => r.take (ncols g.y))).length := by
      rw [List.length_map]
      exact hj
    rw [hsollam, hsoly, getD_map_lt _ _ j hlt [] []]
    constructor
    · rw [List.length_map]
    · intro x hx
      obtain ⟨x0, _, hx0⟩ := List.mem_map.mp hx
      exact hx0.symm
  · intro pv hpv
    have hplen := hp pv hpv
    have hp' : (solve (fun _ => e) s g).2.sol.p = pv.take g.p.length := by
      rw [hsolp, hpv]
    have hnu' : (solve (fun _ => e) s g).2.sol.nu = pv.drop g.p.length := by
      rw [hsolnu, hpv]
      apply List.take_of_length_le
      rw [List.length_drop]
      omega
    exact ⟨hp', hnu', by rw [hp', hnu', List.take_append_drop]⟩
  · intro hnone
    rw [hsolp, hsolnu, hnone]
    exact ⟨rfl, rfl⟩

/-- Claim C9, witness: the example engine output of two stacked columns is
split for the one-state one-quadrature example guess — node 0's y and q
rows concatenate back to the full column, and the empty engine parameter
vector splits into the empty p and nu. -/
theorem compose_splits_columns_witness :
    (((solve (fun _ => exEngineOut) exSolver exGuessQ).2.sol.y.getD 0 [])
        ++ ((solve (fun _ => exEngineOut) exSolver exGuessQ).2.sol.q.getD 0 [])
        = (transposeM exEngineOut.y).getD 0 [])
      ∧ (solve (fun _ => exEngineOut) exSolver exGuessQ).2.sol.p
          = ([] : Vec).take exGuessQ.p.length := by
  have hp : ∀ pv, exEngineOut.p = some pv → pv.length
      = exGuessQ.p.length + exGuessQ.nu.length := fun pv hpv => by
    have h0 : some ([] : Vec) = some pv := hpv
    injection h0 with h1
    rw [← h1]
    rfl
  constructor
  · exact ((compose_splits_columns exEngineOut exSolver exGuessQ (by decide) hp).1
      0 (by decide)).2.2
  · exact ((compose_splits_columns exEngineOut exSolver exGuessQ (by decide) hp).2.2.2.2.2.1
      [] rfl).1

/-- Claim C10: `solve` raises no error of its own — it is a total function
of the engine outcome — and a failing engine outcome is reported through
the result record: success is false, the message is the engine's
(non-empty) message, and the solution's converged flag is false. -/
theorem solve_reports_failure (e : EngineOutput) (s : Solver) (g : Traj)
    (hs : e.success = false) (hm : e.message ≠ "") :
    (solve (fun _ => e) s g).2.success = false
      ∧ (solve (fun _ => e) s g).2.message = e.message
      ∧ (solve (fun _ => e) s g).2.message ≠ ""
      ∧ (solve (fun _ => e) s g).2.sol.converged = false := by
  exact ⟨hs, rfl, hm, hs⟩

/-- Claim C10, witness: the constant failing engine output is reported as
a non-raising failure for the quadrature-free example guess. -/
theorem solve_reports_failure_witness :
    (solve (fun _ => constEngine (buildEngineInput exSolver exGuessNoQ).2) exSolver
        exGuessNoQ).2.success = false
      ∧ (solve (fun _ => constEngine (buildEngineInput exSolver exGuessNoQ).2) exSolver
          exGuessNoQ).2.message
          = (constEngine (buildEngineInput exSolver exGuessNoQ).2).message
      ∧ (solve (fun _ => constEngine (buildEngineInput exSolver exGuessNoQ).2) exSolver
          exGuessNoQ).2.message ≠ ""
      ∧ (solve (fun _ => constEngine (buildEngineInput exSolver exGuessNoQ).2) exSolver
          exGuessNoQ).2.sol.converged = false := by
  exact solve_reports_failure (constEngine (buildEngineInput exSolver exGuessNoQ).2)
    exSolver exGuessNoQ (by decide) (by decide)

theorem alookup_aupdate_ne {α : Type} (a b : Nat) (f : α → α) (l : List (Nat × α))
    (hne : b ≠ a) : alookup b (aupdate a f l) = alookup b l := by
  induction l with
  | nil => rfl
  | cons kv tl ih =>
    obtain ⟨c, v⟩ := kv
    unfold aupdate
    by_cases hca : c = a
    · rw [if_pos hca]
      unfold alookup
      rw [if_neg (by omega), if_neg (by omega)]
      exact ih
    · rw [if_neg hca]
      unfold alookup
      by_cases hbc : b = c
      · rw [if_pos hbc, if_pos hbc]
      · rw [if_neg hbc, if_neg hbc]
        exact ih

/-- Claim C5: `solve` never mutates the caller's guess object.  In the
heap model, after a call on a live caller object all of the caller's
fields (the whole trajectory record, including its aux-dictionary address)
and the content of the caller's aux dictionary are unchanged, and the
returned solution is a different object whose mutable aux dictionary is a
different dictionary — no mutable aliasing with the caller. -/
theorem solveH_preserves_caller (engine : EngineInput → EngineOutput) (self : Solver)
    (h0 : Heap) (caller : Nat) (cObj : HTraj) (cAux : List (String × Int))
    (hc : lookupT h0 caller = some cObj)
    (ha : lookupD h0 cObj.auxAddr = some cAux)
    (hfr1 : caller < h0.fresh) (hfr2 : cObj.auxAddr < h0.fresh) :
    ∃ h' self' res, solveH engine self h0 caller = some (h', self', res)
      ∧ lookupT h' caller = some cObj
      ∧ lookupD h' cObj.auxAddr = some cAux
      ∧ res.solAddr ≠ caller
      ∧ ∃ sObj, lookupT h' res.solAddr = some sObj ∧ sObj.auxAddr ≠ cObj.auxAddr := by
  unfold solveH
  rw [hc]
  dsimp only
  rw [ha]
  dsimp only
  refine ⟨_, _, _, rfl, ?_, ?_, ?_, ?_⟩
  · simp only [lookupT, updateD, allocT, allocD]
    unfold alookup
    rw [if_neg (by omega)]
    unfold alookup
    rw [if_neg (by omega)]
    exact hc
  · simp only [lookupD, updateD, allocT, allocD]
    rw [alookup_aupdate_ne _ _ _ _ (by omega), alookup_aupdate_ne _ _ _ _ (by omega)]
    unfold alookup
    rw [if_neg (by omega)]
    exact ha
  · simp only [allocT, allocD]
    omega
  · refine ⟨hOfTraj (composeSolFields (trajOfH cObj cAux)
      (engine (buildEngineInput self (trajOfH cObj cAux)).2)) h0.fresh, ?_, ?_⟩
    · simp only [lookupT, updateD, allocT, allocD]
      unfold alookup
      rw [if_pos rfl]
    · simp only [hOfTraj]
      omega

/-- Claim C5, witness: the example heap's caller object at address 0 (aux
dictionary at address 1) survives a call with the constant engine. -/
theorem solveH_preserves_caller_witness :
    ∃ h' self' res, solveH constEngine exSolver exHeap 0 = some (h', self', res)
      ∧ lookupT h' 0 = some exHTraj
      ∧ lookupD h' exHTraj.auxAddr = some [("a", 5)]
      ∧ res.solAddr ≠ 0
      ∧ ∃ sObj, lookupT h' res.solAddr = some sObj ∧ sObj.auxAddr ≠ exHTraj.auxAddr := by
  exact solveH_preserves_caller constEngine exSolver exHeap 0 exHTraj [("a", 5)]
    (by decide) (by decide) (by decide) (by decide)

end SPBVP
